import Mathlib

/-!
Verification development for the ccase identifier-case converter.

Strings are embedded as lists of Unicode code points (`List Nat`).
The CLI wrapper (src/main.rs) is embedded from the source; the conversion
engine (the Converter, Boundary, Case and Pattern values it delegates to)
and the flag-value name resolution live outside src/ and are modelled from
the specification, as marked on each definition.
-/

/-- ASCII uppercase-letter test on a code point (codes 65 to 90). -/
def isUpperC (c : Nat) : Bool := decide (65 ≤ c ∧ c ≤ 90)

/-- ASCII lowercase-letter test on a code point (codes 97 to 122). -/
def isLowerC (c : Nat) : Bool := decide (97 ≤ c ∧ c ≤ 122)

/-- ASCII digit test on a code point (codes 48 to 57). -/
def isDigitC (c : Nat) : Bool := decide (48 ≤ c ∧ c ≤ 57)

/-- Alphabetic test: uppercase or lowercase letter. -/
def isAlphaC (c : Nat) : Bool := isUpperC c || isLowerC c

/-- Lowercasing of a code point: uppercase letters shift by 32, all else fixed. -/
def toLowerC (c : Nat) : Nat := if isUpperC c then c + 32 else c

/-- Uppercasing of a code point: lowercase letters shift by 32, all else fixed. -/
def toUpperC (c : Nat) : Nat := if isLowerC c then c - 32 else c

/-- Code points of a string literal, for writing concrete inputs. -/
def codes (s : String) : List Nat := s.data.map Char.toNat

/-- Modelled from the spec: the named boundary rules of the table in section 3
(the convert_case Boundary type used by src/main.rs, not present under src). -/
inductive Boundary
  | Underscore
  | Hyphen
  | Space
  | LowerUpper
  | UpperLower
  | DigitLower
  | DigitUpper
  | LowerDigit
  | UpperDigit
  | Acronym
deriving DecidableEq, BEq

/-- Modelled from the spec: a character is a delimiter character exactly when an
active delimiter boundary names it (underscore 95, hyphen 45, space 32). -/
def isDelimChar (bs : List Boundary) (c : Nat) : Bool :=
  (bs.contains Boundary.Underscore && c == 95) ||
  (bs.contains Boundary.Hyphen && c == 45) ||
  (bs.contains Boundary.Space && c == 32)

/-- Lookahead test: the optional character is a lowercase letter. -/
def optLower : Option Nat → Bool
  | some c => isLowerC c
  | none => false

/-- Test that the optional preceding character is an uppercase letter. -/
def optUpper : Option Nat → Bool
  | some c => isUpperC c
  | none => false

/-- Modelled from the spec: the case-transition boundary conditions of section 3
on the window (prev, a, b, la), deciding a cut between a and b.  The Acronym
rule fires on the run Upper, Upper, Lower and places the cut between the two
uppercase letters; it takes precedence over a naive UpperLower cut, which is
suppressed when the pair is part of such an acronym-to-word transition (the
preceding character is also uppercase), as validated against the canonical
examples of section 8. -/
def transitionCut (bs : List Boundary) (prev : Option Nat) (a b : Nat) (la : Option Nat) : Bool :=
  (bs.contains Boundary.Acronym && isUpperC a && isUpperC b && optLower la) ||
  (bs.contains Boundary.LowerUpper && isLowerC a && isUpperC b) ||
  (bs.contains Boundary.UpperLower && isUpperC a && isLowerC b && !optUpper prev) ||
  (bs.contains Boundary.LowerDigit && isLowerC a && isDigitC b) ||
  (bs.contains Boundary.UpperDigit && isUpperC a && isDigitC b) ||
  (bs.contains Boundary.DigitLower && isDigitC a && isLowerC b) ||
  (bs.contains Boundary.DigitUpper && isDigitC a && isUpperC b)

/-- Emit the pending word if it is nonempty; empty segments are discarded, so a
run of delimiter characters collapses to a single cut. -/
def flush (cur : List Nat) (ws : List (List Nat)) : List (List Nat) :=
  if cur = [] then ws else cur :: ws

/-- Modelled from the spec: the single left-to-right scan of section 4.1.
`prev` is the character just consumed, `cur` the word being accumulated.
Delimiter characters are consumed without joining any word; a transition cut
between the two characters of the current pair closes the accumulated word. -/
def detectGo (bs : List Boundary) : Option Nat → List Nat → List Nat → List (List Nat)
  | _, cur, [] => flush cur []
  | prev, cur, c :: rest =>
    if isDelimChar bs c then
      flush cur (detectGo bs (some c) [] rest)
    else
      match rest with
      | [] => flush (cur ++ [c]) []
      | d :: rest2 =>
        if transitionCut bs prev c d rest2.head? then
          (cur ++ [c]) :: detectGo bs (some c) [] rest
        else
          detectGo bs (some c) (cur ++ [c]) rest

/-- Modelled from the spec: the Boundary Detector contract of section 4.1,
splitting a raw string into its ordered word sequence. -/
def detect (bs : List Boundary) (s : List Nat) : List (List Nat) :=
  detectGo bs none [] s

/-- Modelled from the spec: the default boundary set of section 3, used for
auto-detection.  It holds every listed boundary except the caveated bare
UpperLower cut, whose role in the default set is played by the Acronym rule, as
fixed by the canonical examples of section 8 (myVarName splits as my, Var, Name
and HTTPServer as HTTP, Server). -/
def defaultBoundaries : List Boundary :=
  [Boundary.Underscore, Boundary.Hyphen, Boundary.Space, Boundary.LowerUpper,
   Boundary.LowerDigit, Boundary.UpperDigit, Boundary.DigitLower,
   Boundary.DigitUpper, Boundary.Acronym]

/-- Modelled from the spec: the per-word rendering rules of section 3. -/
inductive Pattern
  | Lower
  | Upper
  | Capital
  | Sentence
  | Camel
  | Toggle
  | Alternating
deriving DecidableEq, BEq

/-- All characters of the word lowercased. -/
def lowerWord (w : List Nat) : List Nat := w.map toLowerC

/-- All characters of the word uppercased. -/
def upperWord (w : List Nat) : List Nat := w.map toUpperC

/-- First character uppercased, all remaining characters lowercased. -/
def capitalWord : List Nat → List Nat
  | [] => []
  | c :: cs => toUpperC c :: cs.map toLowerC

/-- One step of the alternating walk: uppercase when the toggle is set. -/
def altChar (b : Bool) (c : Nat) : Nat := if b then toUpperC c else toLowerC c

/-- Alternating walk over one word: only letters are recased and advance the
toggle; other characters pass through unchanged. -/
def altWord (b : Bool) : List Nat → List Nat × Bool
  | [] => ([], b)
  | c :: cs =>
    if isAlphaC c then
      ((altChar b c) :: (altWord (!b) cs).1, (altWord (!b) cs).2)
    else
      (c :: (altWord b cs).1, (altWord b cs).2)

/-- Alternating walk across the whole word sequence, threading the toggle
through word boundaries, so the alternation ignores them. -/
def altWords (b : Bool) : List (List Nat) → List (List Nat)
  | [] => []
  | w :: ws => (altWord b w).1 :: altWords (altWord b w).2 ws

/-- Modelled from the spec: application of a rendering Pattern to the word
sequence, per word index (section 3). -/
def applyPattern : Pattern → List (List Nat) → List (List Nat)
  | Pattern.Lower, ws => ws.map lowerWord
  | Pattern.Upper, ws => ws.map upperWord
  | Pattern.Capital, ws => ws.map capitalWord
  | Pattern.Sentence, [] => []
  | Pattern.Sentence, w :: ws => capitalWord w :: ws.map lowerWord
  | Pattern.Camel, [] => []
  | Pattern.Camel, w :: ws => lowerWord w :: ws.map capitalWord
  | Pattern.Toggle, ws => ws.map capitalWord
  | Pattern.Alternating, ws => altWords false ws

/-- Join the word sequence with the delimiter between consecutive words; no
leading or trailing delimiter is produced. -/
def joinD (d : List Nat) : List (List Nat) → List Nat
  | [] => []
  | [w] => w
  | w :: x :: ws => w ++ d ++ joinD d (x :: ws)

/-- Modelled from the spec: the named case conventions of the table in
section 3. -/
inductive Case
  | Snake
  | Constant
  | Kebab
  | Cobol
  | Pascal
  | Camel
  | Lower
  | Upper
  | Title
  | Sentence
  | Train
  | Flat
  | Alternating
deriving DecidableEq, BEq

/-- Modelled from the spec: the Pattern column of the case table. -/
def casePattern : Case → Pattern
  | Case.Snake => Pattern.Lower
  | Case.Constant => Pattern.Upper
  | Case.Kebab => Pattern.Lower
  | Case.Cobol => Pattern.Upper
  | Case.Pascal => Pattern.Capital
  | Case.Camel => Pattern.Camel
  | Case.Lower => Pattern.Lower
  | Case.Upper => Pattern.Upper
  | Case.Title => Pattern.Capital
  | Case.Sentence => Pattern.Sentence
  | Case.Train => Pattern.Toggle
  | Case.Flat => Pattern.Lower
  | Case.Alternating => Pattern.Alternating

/-- Modelled from the spec: the Delimiter column of the case table
(underscore 95, hyphen 45, space 32, or empty). -/
def caseDelim : Case → List Nat
  | Case.Snake => [95]
  | Case.Constant => [95]
  | Case.Kebab => [45]
  | Case.Cobol => [45]
  | Case.Pascal => []
  | Case.Camel => []
  | Case.Lower => [32]
  | Case.Upper => [32]
  | Case.Title => [32]
  | Case.Sentence => [32]
  | Case.Train => [45]
  | Case.Flat => []
  | Case.Alternating => [32]

/-- Modelled from the spec: the boundary set implied by a source case's
delimiter and pattern (section 4.1): delimiter cases imply exactly their
delimiter boundary, the empty-delimiter camel and pascal cases imply the
case-transition boundaries, and flat implies none. -/
def caseBoundaries : Case → List Boundary
  | Case.Snake => [Boundary.Underscore]
  | Case.Constant => [Boundary.Underscore]
  | Case.Kebab => [Boundary.Hyphen]
  | Case.Cobol => [Boundary.Hyphen]
  | Case.Pascal => [Boundary.LowerUpper, Boundary.Acronym, Boundary.LowerDigit,
      Boundary.UpperDigit, Boundary.DigitLower, Boundary.DigitUpper]
  | Case.Camel => [Boundary.LowerUpper, Boundary.Acronym, Boundary.LowerDigit,
      Boundary.UpperDigit, Boundary.DigitLower, Boundary.DigitUpper]
  | Case.Lower => [Boundary.Space]
  | Case.Upper => [Boundary.Space]
  | Case.Title => [Boundary.Space]
  | Case.Sentence => [Boundary.Space]
  | Case.Train => [Boundary.Hyphen]
  | Case.Flat => []
  | Case.Alternating => [Boundary.Space]

/-- Modelled from the spec: the convert_case Converter value built by
src/main.rs convert (lines 61 to 89): an active boundary set, an optional
rendering pattern and a join delimiter. -/
structure Converter where
  boundaries : List Boundary
  pattern : Option Pattern
  delim : List Nat
deriving DecidableEq

/-- Modelled from the spec: a fresh Converter auto-detects with the default
boundary set, has no pattern and the empty delimiter. -/
def Converter.new : Converter := ⟨defaultBoundaries, none, []⟩

/-- Modelled from the spec: a source case replaces the boundary set by the set
its delimiter and pattern imply. -/
def Converter.from_case (conv : Converter) (c : Case) : Converter :=
  ⟨caseBoundaries c, conv.pattern, conv.delim⟩

/-- Modelled from the spec: an explicit boundary set is used exactly as
given. -/
def Converter.set_boundaries (conv : Converter) (bs : List Boundary) : Converter :=
  ⟨bs, conv.pattern, conv.delim⟩

/-- Modelled from the spec: a target case sets its pattern and its join
delimiter. -/
def Converter.to_case (conv : Converter) (c : Case) : Converter :=
  ⟨conv.boundaries, some (casePattern c), caseDelim c⟩

/-- Modelled from the spec: a target pattern is set independently of the
delimiter. -/
def Converter.set_pattern (conv : Converter) (p : Pattern) : Converter :=
  ⟨conv.boundaries, some p, conv.delim⟩

/-- Modelled from the spec: the join delimiter is set independently of the
pattern. -/
def Converter.set_delim (conv : Converter) (d : List Nat) : Converter :=
  ⟨conv.boundaries, conv.pattern, d⟩

/-- Modelled from the spec: one conversion, composing the Boundary Detector and
the Word Renderer (section 2); with no pattern the detected words are joined
unchanged.  The result carries no trailing newline. -/
def Converter.convert (conv : Converter) (input : List Nat) : List Nat :=
  match conv.pattern with
  | some p => joinD conv.delim (applyPattern p (detect conv.boundaries input))
  | none => joinD conv.delim (detect conv.boundaries input)

/-- Scan deciding whether one boundary's condition fires anywhere in a sample
string, on the same window logic as detection. -/
def anyWindow (b : Boundary) : Option Nat → List Nat → Bool
  | _, [] => false
  | prev, c :: rest =>
    isDelimChar [b] c ||
    (match rest with
     | d :: rest2 => transitionCut [b] prev c d rest2.head?
     | [] => false) ||
    anyWindow b (some c) rest

/-- Every boundary kind, in the order of the table in section 3. -/
def allBoundaries : List Boundary :=
  [Boundary.Underscore, Boundary.Hyphen, Boundary.Space, Boundary.LowerUpper,
   Boundary.UpperLower, Boundary.DigitLower, Boundary.DigitUpper,
   Boundary.LowerDigit, Boundary.UpperDigit, Boundary.Acronym]

/-- Modelled from the spec: the parsing of a --boundaries flag value into a
boundary set (Boundary::list_from in src/main.rs line 71, defined outside src):
the set of boundaries whose condition fires somewhere in the sample string, as
validated against the boundaries test of src/main.rs (lines 225 to 232), where
the sample aA yields only the LowerUpper boundary and the sample - yields only
the Hyphen boundary.  The parse is total. -/
def parseBoundarySpec (sample : List Nat) : List Boundary :=
  allBoundaries.filter (fun b => anyWindow b none sample)

/-- From src/main.rs convert (lines 61 to 89): the conversion of one input
given the parsed flag values, mirroring the if-chain that builds the Converter:
a source case, else an explicit boundary sample, else auto; a target case, else
a pattern with an optional delimiter. -/
def convertMain (fromc : Option Case) (bnds : Option (List Nat)) (toc : Option Case)
    (pat : Option Pattern) (dlm : Option (List Nat)) (input : List Nat) : List Nat :=
  let conv := Converter.new
  let conv :=
    match fromc with
    | some c => conv.from_case c
    | none =>
      match bnds with
      | some sample => conv.set_boundaries (parseBoundarySpec sample)
      | none => conv
  let conv :=
    match toc with
    | some c => conv.to_case c
    | none =>
      match pat with
      | some p =>
        let conv2 := conv.set_pattern p
        match dlm with
        | some d => conv2.set_delim d
        | none => conv2
      | none => conv
  conv.convert input

/-- Modelled from the spec: the error taxonomy of section 7.  Each naming error
carries the offending flag and the invalid value. -/
inductive CcaseError
  | InvalidCaseName (flag : List Nat) (value : List Nat)
  | InvalidPatternName (flag : List Nat) (value : List Nat)
  | InvalidBoundarySpec (value : List Nat)
deriving DecidableEq

/-- Modelled from the spec: the flag values handed to configuration building by
the CLI layer of section 6, as raw strings where a name must be resolved
(from, to, pattern) and as raw samples for boundaries and delimiter. -/
structure RawFlags where
  fromName : Option (List Nat)
  boundarySample : Option (List Nat)
  toName : Option (List Nat)
  patternName : Option (List Nat)
  delimArg : Option (List Nat)

/-- Modelled from the spec: the canonical case-name table of section 3,
including the upper-snake and upper-kebab aliases. -/
def caseTable : List (List Nat × Case) :=
  [(codes "snake", Case.Snake), (codes "constant", Case.Constant),
   (codes "upper-snake", Case.Constant), (codes "kebab", Case.Kebab),
   (codes "cobol", Case.Cobol), (codes "upper-kebab", Case.Cobol),
   (codes "pascal", Case.Pascal), (codes "camel", Case.Camel),
   (codes "lower", Case.Lower), (codes "upper", Case.Upper),
   (codes "title", Case.Title), (codes "sentence", Case.Sentence),
   (codes "train", Case.Train), (codes "flat", Case.Flat),
   (codes "alternating", Case.Alternating)]

/-- Modelled from the spec: the canonical pattern-name table of section 3. -/
def patternTable : List (List Nat × Pattern) :=
  [(codes "lower", Pattern.Lower), (codes "upper", Pattern.Upper),
   (codes "capital", Pattern.Capital), (codes "sentence", Pattern.Sentence),
   (codes "camel", Pattern.Camel), (codes "toggle", Pattern.Toggle),
   (codes "alternating", Pattern.Alternating)]

/-- Modelled from the spec: case-insensitive resolution of a case name against
the canonical table, whole names only, no prefix matching (section 4.2); the
resolution is performed by the flag value parsing of ccase::build_app, which is
not under src. -/
def resolveCase (name : List Nat) : Option Case :=
  match caseTable.find? (fun e => e.1 == name.map toLowerC) with
  | some e => some e.2
  | none => none

/-- Modelled from the spec: case-insensitive resolution of a pattern name, as
for case names. -/
def resolvePattern (name : List Nat) : Option Pattern :=
  match patternTable.find? (fun e => e.1 == name.map toLowerC) with
  | some e => some e.2
  | none => none

/-- Modelled from the spec: configuration building of section 7, validating the
flag names once and building the Converter of src/main.rs convert; an
unrecognized case or pattern name aborts with the taxonomy error naming the
flag and the value.  Boundary samples always parse (the parse is total). -/
def buildConfig (f : RawFlags) : Except CcaseError Converter :=
  match
    (match f.fromName with
     | some n =>
       match resolveCase n with
       | some c => Except.ok (Converter.new.from_case c)
       | none => Except.error (CcaseError.InvalidCaseName (codes "--from") n)
     | none =>
       match f.boundarySample with
       | some sample => Except.ok (Converter.new.set_boundaries (parseBoundarySpec sample))
       | none => Except.ok Converter.new) with
  | Except.error e => Except.error e
  | Except.ok conv =>
    match f.toName with
    | some n =>
      match resolveCase n with
      | some c => Except.ok (conv.to_case c)
      | none => Except.error (CcaseError.InvalidCaseName (codes "--to") n)
    | none =>
      match f.patternName with
      | some n =>
        match resolvePattern n with
        | some p =>
          match f.delimArg with
          | some d => Except.ok ((conv.set_pattern p).set_delim d)
          | none => Except.ok (conv.set_pattern p)
        | none => Except.error (CcaseError.InvalidPatternName (codes "--pattern") n)
      | none => Except.ok conv

/-- From src/main.rs main (line 36): one whole invocation: the configuration is
built once; on success every input is converted in order, one result per input;
a validation error aborts before any conversion runs. -/
def runInvocation (f : RawFlags) (inputs : List (List Nat)) :
    Except CcaseError (List (List Nat)) :=
  match buildConfig f with
  | Except.error e => Except.error e
  | Except.ok conv => Except.ok (inputs.map conv.convert)

/-- From src/main.rs main (line 36) and convert (line 88): each converted
string is written with print!, which appends no newline, so the invocation's
standard output is the plain concatenation of the converted strings. -/
def mainStdout (f : RawFlags) (inputs : List (List Nat)) : Except CcaseError (List Nat) :=
  match buildConfig f with
  | Except.error e => Except.error e
  | Except.ok conv => Except.ok (List.flatten (inputs.map conv.convert))

/-- Conversion under a target case given by name, through name resolution; none
when the name does not resolve. -/
def convertNamed (name : List Nat) (input : List Nat) : Option (List Nat) :=
  match resolveCase name with
  | some c => some (convertMain none none (some c) none none input)
  | none => none

/-- One auto-detected conversion to a target case, as performed for a --to
flag alone. -/
def convertAuto (c : Case) (s : List Nat) : List Nat :=
  (Converter.new.to_case c).convert s

/-- Re-conversion of an already converted string to the same target case, using
that case as the source, as in the idempotence property of section 8. -/
def reconvert (c : Case) (s : List Nat) : List Nat :=
  ((Converter.new.from_case c).to_case c).convert (convertAuto c s)

/-- Continuation-byte test of the UTF-8 encoding (128 to 191). -/
def contByte (b : Nat) : Bool := decide (128 ≤ b ∧ b ≤ 191)

/-- Strict UTF-8 decoding of a byte sequence into code points, rejecting
overlong forms, surrogates and out-of-range values; this models the validity
check of Rust's String::from_utf8 and OsString::into_string used by
src/main.rs get_args_with_stdin (lines 39 to 59). -/
def utf8Decode : List Nat → Option (List Nat)
  | [] => some []
  | b :: l =>
    if b ≤ 127 then
      match utf8Decode l with
      | some cs => some (b :: cs)
      | none => none
    else if 194 ≤ b ∧ b ≤ 223 then
      match l with
      | b2 :: l2 =>
        if contByte b2 then
          match utf8Decode l2 with
          | some cs => some (((b - 192) * 64 + (b2 - 128)) :: cs)
          | none => none
        else none
      | [] => none
    else if 224 ≤ b ∧ b ≤ 239 then
      match l with
      | b2 :: b3 :: l3 =>
        if ((b == 224 && decide (160 ≤ b2 ∧ b2 ≤ 191)) ||
            (b == 237 && decide (128 ≤ b2 ∧ b2 ≤ 159)) ||
            (decide ((225 ≤ b ∧ b ≤ 236) ∨ b = 238 ∨ b = 239) && contByte b2)) &&
           contByte b3 then
          match utf8Decode l3 with
          | some cs =>
            some (((b - 224) * 4096 + (b2 - 128) * 64 + (b3 - 128)) :: cs)
          | none => none
        else none
      | _ => none
    else if 240 ≤ b ∧ b ≤ 244 then
      match l with
      | b2 :: b3 :: b4 :: l4 =>
        if ((b == 240 && decide (144 ≤ b2 ∧ b2 ≤ 191)) ||
            (decide (241 ≤ b ∧ b ≤ 243) && contByte b2) ||
            (b == 244 && decide (128 ≤ b2 ∧ b2 ≤ 143))) &&
           contByte b3 && contByte b4 then
          match utf8Decode l4 with
          | some cs =>
            some (((b - 240) * 262144 + (b2 - 128) * 4096 +
                   (b3 - 128) * 64 + (b4 - 128)) :: cs)
          | none => none
        else none
      | _ => none
    else none

/-- Sequential UTF-8 decoding of every OS argument; the first failure is a
panic of the unwrap in src/main.rs line 40, modelled as none. -/
def decodeAll : List (List Nat) → Option (List (List Nat))
  | [] => some []
  | a :: l =>
    match utf8Decode a, decodeAll l with
    | some x, some xs => some (x :: xs)
    | _, _ => none

/-- ASCII whitespace test, for the per-line trailing trim. -/
def isWsC (c : Nat) : Bool := c == 32 || c == 9 || c == 10 || c == 13

/-- Trailing-whitespace trim of one line (trim_end in src/main.rs line 53). -/
def trimEnd (w : List Nat) : List Nat :=
  (w.reverse.dropWhile isWsC).reverse

/-- Strip one carriage return at the end of a line, as Rust lines does. -/
def stripCr (w : List Nat) : List Nat :=
  match w.getLast? with
  | some 13 => w.dropLast
  | _ => w

/-- Split decoded standard input into lines on newline (code 10), dropping a
final empty segment, as Rust lines does (src/main.rs line 52). -/
def linesGo (cur : List Nat) : List Nat → List (List Nat)
  | [] => if cur = [] then [] else [stripCr cur]
  | c :: rest =>
    if c == 10 then stripCr cur :: linesGo [] rest
    else linesGo (cur ++ [c]) rest

/-- From src/main.rs get_args_with_stdin (lines 39 to 59): the OS arguments are
decoded as UTF-8 one by one with unwrap; when standard input is not a terminal
its bytes are read whole and decoded as UTF-8 with unwrap, and if nonempty each
of its lines is trailing-trimmed and appended to the arguments.  A decoding
failure is a panic, modelled as none. -/
def get_args_with_stdin (argvBytes : List (List Nat)) (stdinTty : Bool)
    (stdinBytes : List Nat) : Option (List (List Nat)) :=
  match decodeAll argvBytes with
  | none => none
  | some args =>
    if stdinTty then some args
    else
      match utf8Decode stdinBytes with
      | none => none
      | some s =>
        if s = [] then some args
        else some (args ++ (linesGo [] s).map trimEnd)

/-- From src/main.rs main (lines 6 to 37): argument collection runs first, then
flag parsing (clap, external, abstracted as flagsOf) and the conversions; a
panic during argument collection, modelled as none, aborts before any
conversion is performed. -/
def mainRun (flagsOf : List (List Nat) → RawFlags × List (List Nat))
    (argvBytes : List (List Nat)) (stdinTty : Bool) (stdinBytes : List Nat) :
    Option (Except CcaseError (List (List Nat))) :=
  match get_args_with_stdin argvBytes stdinTty stdinBytes with
  | none => none
  | some args => some (runInvocation (flagsOf args).1 (flagsOf args).2)

/-- A code point is separator-safe when it is none of the three delimiter
characters underscore 95, hyphen 45 and space 32; auto-detected words contain
only such characters. -/
def sepSafe (c : Nat) : Prop := c ≠ 95 ∧ c ≠ 45 ∧ c ≠ 32

/-- Specialization of the detection scan to a boundary set whose transition
conditions never fire: a plain splitter on the delimiter-character test. -/
def splitGo (P : Nat → Bool) : List Nat → List Nat → List (List Nat)
  | cur, [] => flush cur []
  | cur, c :: rest =>
    if P c then flush cur (splitGo P [] rest)
    else splitGo P (cur ++ [c]) rest

/-- Any Converter maps the empty input to the empty word sequence and the empty
output: shared by the emptiness and totality results. -/
theorem Converter.convert_nil (conv : Converter) : conv.convert [] = [] := by
  obtain ⟨bs, p, d⟩ := conv
  cases p with
  | none => rfl
  | some pat => cases pat <;> rfl

/-- C2: converting the empty string under every configuration, whatever the
boundary set, pattern and delimiter, yields the empty string, with no trailing
delimiter and no failure. -/
theorem empty_string_identity (conv : Converter) : conv.convert [] = [] :=
  Converter.convert_nil conv

/-- C4: under auto-detected boundaries the input HTTPServer is segmented into
the words HTTP and Server, the acronym cut falling between the two uppercase
letters that precede a lowercase letter, and converting it to the snake case
yields http_server. -/
theorem acronym_httpserver :
    detect defaultBoundaries (codes "HTTPServer") = [codes "HTTP", codes "Server"] ∧
    convertAuto Case.Snake (codes "HTTPServer") = codes "http_server" := by
  constructor
  · decide
  · decide

/-- C6: with the explicit boundary set holding only LowerUpper, exactly that
boundary is used: myVar-Name-Longer converts to snake as my_var-name-longer,
the hyphens untouched; the boundary sample aA parses to exactly that set, as in
the boundaries test of src/main.rs. -/
theorem explicit_boundaries_exact :
    parseBoundarySpec (codes "aA") = [Boundary.LowerUpper] ∧
    ((Converter.new.set_boundaries [Boundary.LowerUpper]).to_case Case.Snake).convert
        (codes "myVar-Name-Longer") = codes "my_var-name-longer" ∧
    convertMain none (some (codes "aA")) (some Case.Snake) none none
        (codes "myVar-Name-Longer") = codes "my_var-name-longer" := by
  refine ⟨by decide, by decide, by decide⟩

/-- C7: a target pattern is applied per word and the words are joined with the
supplied delimiter (the renderer is exactly that composition); the sentence
pattern with delimiter dot turns myVarName into My.var.name; and omitting the
delimiter behaves as the empty delimiter. -/
theorem pattern_and_delimiter (p : Pattern) (input : List Nat) :
    (∀ bs d, Converter.convert ⟨bs, some p, d⟩ input
        = joinD d (applyPattern p (detect bs input))) ∧
    convertMain none none none (some p) none input
        = convertMain none none none (some p) (some []) input ∧
    convertMain none none none (some Pattern.Sentence) (some (codes "."))
        (codes "myVarName") = codes "My.var.name" := by
  refine ⟨fun bs d => rfl, rfl, by decide⟩

/-- C9: every unrecognized case name, supplied as target or as source and
whatever the other flags, makes the whole invocation abort with an
InvalidCaseName error naming the offending flag (--to or --from) and the
invalid value, before any conversion runs, so no converted output is produced
for any input; in particular the name SNEK does not resolve. -/
theorem unknown_case_name_fatal (n : List Nat) (inputs : List (List Nat))
    (h : resolveCase n = none) :
    (∀ bnds pat dlm : Option (List Nat),
      runInvocation ⟨none, bnds, some n, pat, dlm⟩ inputs
        = Except.error (CcaseError.InvalidCaseName (codes "--to") n)) ∧
    (∀ bnds toc pat dlm : Option (List Nat),
      runInvocation ⟨some n, bnds, toc, pat, dlm⟩ inputs
        = Except.error (CcaseError.InvalidCaseName (codes "--from") n)) ∧
    resolveCase (codes "SNEK") = none := by
  refine ⟨?_, ?_, by decide⟩
  · intro bnds pat dlm
    cases bnds with
    | none => simp only [runInvocation, buildConfig, h]
    | some sample => simp only [runInvocation, buildConfig, h]
  · intro bnds toc pat dlm
    simp only [runInvocation, buildConfig, h]

/-- Witness for the fatal unknown-name result at the unresolved name SNEK and
the concrete input myVarName. -/
theorem unknown_case_name_fatal_witness :
    resolveCase (codes "SNEK") = none ∧
    ((∀ bnds pat dlm : Option (List Nat),
       runInvocation ⟨none, bnds, some (codes "SNEK"), pat, dlm⟩ [codes "myVarName"]
         = Except.error (CcaseError.InvalidCaseName (codes "--to") (codes "SNEK"))) ∧
     (∀ bnds toc pat dlm : Option (List Nat),
       runInvocation ⟨some (codes "SNEK"), bnds, toc, pat, dlm⟩ [codes "myVarName"]
         = Except.error (CcaseError.InvalidCaseName (codes "--from") (codes "SNEK"))) ∧
     resolveCase (codes "SNEK") = none) :=
  ⟨by decide, unknown_case_name_fatal (codes "SNEK") [codes "myVarName"] (by decide)⟩

/-- C3: once the configuration has been validated, conversion is total: the
invocation succeeds with exactly one converted output per input, in order, with
no per-input error, including on the empty string. -/
theorem validated_config_total (f : RawFlags) (conv : Converter)
    (h : buildConfig f = Except.ok conv) (inputs : List (List Nat)) :
    runInvocation f inputs = Except.ok (inputs.map conv.convert) ∧
    conv.convert [] = [] := by
  refine ⟨?_, Converter.convert_nil conv⟩
  unfold runInvocation
  rw [h]

/-- Witness for the totality result at the concrete target case snake and the
concrete input myVarName. -/
theorem validated_config_total_witness :
    buildConfig ⟨none, none, some (codes "snake"), none, none⟩
      = Except.ok ⟨defaultBoundaries, some Pattern.Lower, [95]⟩ ∧
    (runInvocation ⟨none, none, some (codes "snake"), none, none⟩ [codes "myVarName"]
        = Except.ok ([codes "myVarName"].map
            (Converter.convert ⟨defaultBoundaries, some Pattern.Lower, [95]⟩)) ∧
     Converter.convert ⟨defaultBoundaries, some Pattern.Lower, [95]⟩ [] = []) :=
  ⟨rfl, validated_config_total ⟨none, none, some (codes "snake"), none, none⟩
    ⟨defaultBoundaries, some Pattern.Lower, [95]⟩ rfl [codes "myVarName"]⟩

/-- C8: name resolution is case-insensitive for case names and pattern names,
whole names only: two spellings with the same lowercasing resolve identically,
and the target case names SNAKE, SnAkE and snake give identical output on every
input. -/
theorem name_resolution_case_insensitive (n1 n2 input : List Nat)
    (h : n1.map toLowerC = n2.map toLowerC) :
    resolveCase n1 = resolveCase n2 ∧
    resolvePattern n1 = resolvePattern n2 ∧
    convertNamed (codes "SNAKE") input = convertNamed (codes "snake") input ∧
    convertNamed (codes "SnAkE") input = convertNamed (codes "snake") input := by
  refine ⟨?_, ?_, rfl, rfl⟩
  · unfold resolveCase
    rw [h]
  · unfold resolvePattern
    rw [h]

/-- Witness for case-insensitive resolution at the spellings SNAKE and snake
and the concrete input myVarName. -/
theorem name_resolution_case_insensitive_witness :
    (codes "SNAKE").map toLowerC = (codes "snake").map toLowerC ∧
    (resolveCase (codes "SNAKE") = resolveCase (codes "snake") ∧
     resolvePattern (codes "SNAKE") = resolvePattern (codes "snake") ∧
     convertNamed (codes "SNAKE") (codes "myVarName")
       = convertNamed (codes "snake") (codes "myVarName") ∧
     convertNamed (codes "SnAkE") (codes "myVarName")
       = convertNamed (codes "snake") (codes "myVarName")) :=
  ⟨by decide, name_resolution_case_insensitive (codes "SNAKE") (codes "snake")
    (codes "myVarName") (by decide)⟩

/-- A single undecodable OS argument makes the whole sequential decode fail. -/
theorem decodeAll_eq_none (l : List (List Nat)) (a : List Nat)
    (hmem : a ∈ l) (ha : utf8Decode a = none) : decodeAll l = none := by
  induction l with
  | nil => cases hmem
  | cons x xs ih =>
    rcases List.mem_cons.mp hmem with rfl | hmem2
    · cases hd : decodeAll xs <;> simp [decodeAll, ha, hd]
    · cases hx : utf8Decode x <;> simp [decodeAll, ih hmem2, hx]

/-- C10: whenever standard input is not a terminal and its bytes are not valid
UTF-8, or any OS argument is not valid UTF-8, the argument-collection unwrap
panics (modelled as none) and the program aborts before performing any
conversion. -/
theorem invalid_utf8_panics (flagsOf : List (List Nat) → RawFlags × List (List Nat))
    (argvBytes : List (List Nat)) (stdinTty : Bool) (stdinBytes : List Nat)
    (h : (∃ a, a ∈ argvBytes ∧ utf8Decode a = none) ∨
         (stdinTty = false ∧ utf8Decode stdinBytes = none)) :
    mainRun flagsOf argvBytes stdinTty stdinBytes = none := by
  unfold mainRun get_args_with_stdin
  rcases h with ⟨a, hmem, ha⟩ | ⟨hty, hs⟩
  · rw [decodeAll_eq_none argvBytes a hmem ha]
  · cases hda : decodeAll argvBytes with
    | none => rfl
    | some args => rw [hty]; simp [hs]

/-- Witness for the UTF-8 panic at the single OS argument made of the lone
continuation byte 128. -/
theorem invalid_utf8_panics_witness :
    ((∃ a, a ∈ [[128]] ∧ utf8Decode a = none) ∨
     (false = false ∧ utf8Decode ([] : List Nat) = none)) ∧
    mainRun (fun args => (⟨none, none, none, none, none⟩, args)) [[128]] false [] = none :=
  ⟨Or.inl ⟨[128], List.mem_singleton.mpr rfl, rfl⟩,
   invalid_utf8_panics (fun args => (⟨none, none, none, none, none⟩, args)) [[128]] false []
     (Or.inl ⟨[128], List.mem_singleton.mpr rfl, rfl⟩)⟩

/-- C1: the output layer does not add the claimed newline: converting two
inputs to snake writes their converted forms concatenated with no separator,
because src/main.rs line 88 prints with print!, while the claim (and the
repository's own multiple_inputs test) expects one newline-terminated line per
input. -/
theorem stdout_lacks_newlines :
    mainStdout ⟨none, none, some (codes "snake"), none, none⟩
        [codes "myVarName", codes "anotherMultiWordToken"]
      = Except.ok (codes "my_var_nameanother_multi_word_token") ∧
    codes "my_var_nameanother_multi_word_token"
      ≠ codes "my_var_name\nanother_multi_word_token\n" := by
  exact ⟨rfl, by decide⟩

/-- Arithmetic form of lowercasing. -/
theorem toLowerC_eq (c : Nat) : toLowerC c = if 65 ≤ c ∧ c ≤ 90 then c + 32 else c := by
  simp [toLowerC, isUpperC]

/-- Arithmetic form of uppercasing. -/
theorem toUpperC_eq (c : Nat) : toUpperC c = if 97 ≤ c ∧ c ≤ 122 then c - 32 else c := by
  simp [toUpperC, isLowerC]

/-- Lowercasing is idempotent on every code point. -/
theorem toLowerC_idem (c : Nat) : toLowerC (toLowerC c) = toLowerC c := by
  simp only [toLowerC_eq]
  by_cases h : 65 ≤ c ∧ c ≤ 90
  · simp only [if_pos h]
    split <;> omega
  · simp only [if_neg h]

/-- Uppercasing is idempotent on every code point. -/
theorem toUpperC_idem (c : Nat) : toUpperC (toUpperC c) = toUpperC c := by
  simp only [toUpperC_eq]
  by_cases h : 97 ≤ c ∧ c ≤ 122
  · simp only [if_pos h]
    split <;> omega
  · simp only [if_neg h]

/-- Decidable-proposition form of the alphabetic test. -/
theorem isAlphaC_eq (c : Nat) :
    isAlphaC c = decide ((65 ≤ c ∧ c ≤ 90) ∨ (97 ≤ c ∧ c ≤ 122)) := by
  simp [isAlphaC, isUpperC, isLowerC]

/-- Lowercasing preserves the alphabetic test. -/
theorem isAlphaC_toLowerC (c : Nat) : isAlphaC (toLowerC c) = isAlphaC c := by
  simp only [toLowerC_eq, isAlphaC_eq]
  split
  · simp only [decide_eq_decide]
    omega
  · rfl

/-- Uppercasing preserves the alphabetic test. -/
theorem isAlphaC_toUpperC (c : Nat) : isAlphaC (toUpperC c) = isAlphaC c := by
  simp only [toUpperC_eq, isAlphaC_eq]
  split
  · simp only [decide_eq_decide]
    omega
  · rfl

/-- Lowercasing keeps a character separator-safe. -/
theorem sepSafe_toLowerC (c : Nat) (h : sepSafe c) : sepSafe (toLowerC c) := by
  obtain ⟨h1, h2, h3⟩ := h
  rw [toLowerC_eq]
  refine ⟨?_, ?_, ?_⟩ <;> split <;> omega

/-- Uppercasing keeps a character separator-safe. -/
theorem sepSafe_toUpperC (c : Nat) (h : sepSafe c) : sepSafe (toUpperC c) := by
  obtain ⟨h1, h2, h3⟩ := h
  rw [toUpperC_eq]
  refine ⟨?_, ?_, ?_⟩ <;> split <;> omega

/-- The alternating step preserves the alphabetic test. -/
theorem isAlphaC_altChar (b : Bool) (c : Nat) : isAlphaC (altChar b c) = isAlphaC c := by
  cases b <;> simp [altChar, isAlphaC_toLowerC, isAlphaC_toUpperC]

/-- The alternating step is idempotent at a fixed toggle. -/
theorem altChar_altChar (b : Bool) (c : Nat) : altChar b (altChar b c) = altChar b c := by
  cases b <;> simp [altChar, toLowerC_idem, toUpperC_idem]

/-- The alternating step keeps a character separator-safe. -/
theorem sepSafe_altChar (b : Bool) (c : Nat) (h : sepSafe c) : sepSafe (altChar b c) := by
  cases b
  · simpa [altChar] using sepSafe_toLowerC c h
  · simpa [altChar] using sepSafe_toUpperC c h

/-- Membership in a flush: the pending word when nonempty, or the tail. -/
theorem mem_flush (w cur : List Nat) (ws : List (List Nat)) :
    w ∈ flush cur ws ↔ (cur ≠ [] ∧ w = cur) ∨ w ∈ ws := by
  unfold flush
  split
  · rename_i h
    simp [h]
  · rename_i h
    simp [List.mem_cons, h]

/-- Equation of the scan on the empty input. -/
theorem detectGo_nil (bs : List Boundary) (prev : Option Nat) (cur : List Nat) :
    detectGo bs prev cur [] = flush cur [] := rfl

/-- Equation of the scan on a final character. -/
theorem detectGo_one (bs : List Boundary) (prev : Option Nat) (cur : List Nat) (c : Nat) :
    detectGo bs prev cur [c] =
      if isDelimChar bs c then flush cur [] else flush (cur ++ [c]) [] := rfl

/-- Equation of the scan on a pair of remaining characters. -/
theorem detectGo_cons2 (bs : List Boundary) (prev : Option Nat) (cur : List Nat)
    (c d : Nat) (rest2 : List Nat) :
    detectGo bs prev cur (c :: d :: rest2) =
      if isDelimChar bs c then flush cur (detectGo bs (some c) [] (d :: rest2))
      else if transitionCut bs prev c d rest2.head? then
        (cur ++ [c]) :: detectGo bs (some c) [] (d :: rest2)
      else detectGo bs (some c) (cur ++ [c]) (d :: rest2) := rfl

/-- Equation of the splitter on the empty input. -/
theorem splitGo_nil (P : Nat → Bool) (cur : List Nat) :
    splitGo P cur [] = flush cur [] := rfl

/-- Equation of the splitter on a remaining character. -/
theorem splitGo_cons (P : Nat → Bool) (cur : List Nat) (c : Nat) (rest : List Nat) :
    splitGo P cur (c :: rest) =
      if P c then flush cur (splitGo P [] rest) else splitGo P (cur ++ [c]) rest := rfl

/-- Soundness invariant of the scan: every emitted word is nonempty and free of
active delimiter characters, provided the pending word is. -/
theorem detectGo_sound (bs : List Boundary) (l : List Nat) :
    ∀ (prev : Option Nat) (cur : List Nat),
      (∀ c ∈ cur, isDelimChar bs c = false) →
      ∀ w ∈ detectGo bs prev cur l, w ≠ [] ∧ ∀ c ∈ w, isDelimChar bs c = false := by
  induction l with
  | nil =>
    intro prev cur hcur w hw
    rw [detectGo_nil, mem_flush] at hw
    rcases hw with ⟨hne, rfl⟩ | hw
    · exact ⟨hne, hcur⟩
    · cases hw
  | cons c rest ih =>
    intro prev cur hcur w hw
    have hemp : ∀ x ∈ ([] : List Nat), isDelimChar bs x = false := by
      intro x hx
      cases hx
    cases rest with
    | nil =>
      rw [detectGo_one] at hw
      by_cases hdc : isDelimChar bs c = true
      · rw [if_pos hdc, mem_flush] at hw
        rcases hw with ⟨hne, rfl⟩ | hw
        · exact ⟨hne, hcur⟩
        · cases hw
      · rw [if_neg hdc, mem_flush] at hw
        have hdc' : isDelimChar bs c = false := by
          cases h2 : isDelimChar bs c
          · rfl
          · exact absurd h2 hdc
        rcases hw with ⟨hne, rfl⟩ | hw
        · refine ⟨hne, ?_⟩
          intro x hx
          rcases List.mem_append.mp hx with hx | hx
          · exact hcur x hx
          · rw [List.mem_singleton.mp hx]
            exact hdc'
        · cases hw
    | cons d rest2 =>
      rw [detectGo_cons2] at hw
      by_cases hdc : isDelimChar bs c = true
      · rw [if_pos hdc, mem_flush] at hw
        rcases hw with ⟨hne, rfl⟩ | hw
        · exact ⟨hne, hcur⟩
        · exact ih (some c) [] hemp w hw
      · rw [if_neg hdc] at hw
        have hdc' : isDelimChar bs c = false := by
          cases h2 : isDelimChar bs c
          · rfl
          · exact absurd h2 hdc
        have hcur' : ∀ x ∈ cur ++ [c], isDelimChar bs x = false := by
          intro x hx
          rcases List.mem_append.mp hx with hx | hx
          · exact hcur x hx
          · rw [List.mem_singleton.mp hx]
            exact hdc'
        by_cases hcut : transitionCut bs prev c d rest2.head? = true
        · rw [if_pos hcut] at hw
          rcases List.mem_cons.mp hw with rfl | hw
          · exact ⟨by simp, hcur'⟩
          · exact ih (some c) [] hemp w hw
        · rw [if_neg hcut] at hw
          exact ih (some c) (cur ++ [c]) hcur' w hw

/-- Soundness of detection: every detected word is nonempty and free of active
delimiter characters. -/
theorem detect_sound (bs : List Boundary) (s : List Nat) :
    ∀ w ∈ detect bs s, w ≠ [] ∧ ∀ c ∈ w, isDelimChar bs c = false := by
  intro w hw
  refine detectGo_sound bs s none [] ?_ w hw
  intro x hx
  cases hx

/-- When no transition condition can fire, the scan is the plain splitter on
the delimiter-character test, whatever the preceding character. -/
theorem detectGo_eq_splitGo (bs : List Boundary)
    (htc : ∀ p a b la, transitionCut bs p a b la = false) (l : List Nat) :
    ∀ (prev : Option Nat) (cur : List Nat),
      detectGo bs prev cur l = splitGo (isDelimChar bs) cur l := by
  induction l with
  | nil =>
    intro prev cur
    rfl
  | cons c rest ih =>
    intro prev cur
    cases rest with
    | nil =>
      rw [detectGo_one, splitGo_cons]
      by_cases h : isDelimChar bs c = true
      · rw [if_pos h, if_pos h]
        rfl
      · rw [if_neg h, if_neg h]
        rfl
    | cons d rest2 =>
      rw [detectGo_cons2, splitGo_cons]
      by_cases h : isDelimChar bs c = true
      · rw [if_pos h, if_pos h, ih]
      · rw [if_neg h, if_neg h]
        simp only [htc, Bool.false_eq_true, if_false]
        exact ih (some c) (cur ++ [c])

/-- The splitter walks through a block free of delimiter characters by
accumulating it onto the pending word. -/
theorem splitGo_append (P : Nat → Bool) (w : List Nat)
    (hw : ∀ c ∈ w, P c = false) :
    ∀ (cur l : List Nat), splitGo P cur (w ++ l) = splitGo P (cur ++ w) l := by
  induction w with
  | nil =>
    intro cur l
    simp
  | cons c w2 ih =>
    intro cur l
    rw [List.cons_append, splitGo_cons, if_neg]
    · rw [ih (fun x hx => hw x (List.mem_cons_of_mem c hx)) (cur ++ [c]) l]
      congr 1
      simp
    · rw [hw c (List.mem_cons_self c w2)]
      exact Bool.false_ne_true

/-- A splitter that can never fire accumulates the whole input as one pending
word. -/
theorem splitGo_all_false (P : Nat → Bool) (hP : ∀ c, P c = false) (l : List Nat) :
    ∀ cur, splitGo P cur l = flush (cur ++ l) [] := by
  induction l with
  | nil =>
    intro cur
    rw [splitGo_nil, List.append_nil]
  | cons c rest ih =>
    intro cur
    rw [splitGo_cons, if_neg]
    · rw [ih (cur ++ [c])]
      congr 1
      simp
    · rw [hP c]
      exact Bool.false_ne_true

/-- Splitting the delimiter join of nonempty delimiter-free words recovers
exactly the words. -/
theorem splitGo_join (P : Nat → Bool) (d : Nat) (hd : P d = true) :
    ∀ ws : List (List Nat), (∀ w ∈ ws, w ≠ []) →
      (∀ w ∈ ws, ∀ c ∈ w, P c = false) →
      splitGo P [] (joinD [d] ws) = ws := by
  intro ws
  induction ws with
  | nil =>
    intro h1 h2
    rfl
  | cons w ws2 ih =>
    intro h1 h2
    cases ws2 with
    | nil =>
      have hw0 := h2 w (List.mem_singleton.mpr rfl)
      have hne := h1 w (List.mem_singleton.mpr rfl)
      show splitGo P [] w = [w]
      have ha := splitGo_append P w hw0 [] []
      rw [List.append_nil, List.nil_append] at ha
      rw [ha, splitGo_nil]
      unfold flush
      rw [if_neg hne]
    | cons x ws3 =>
      have hw0 := h2 w (List.mem_cons_self w (x :: ws3))
      have hne := h1 w (List.mem_cons_self w (x :: ws3))
      have hjoin : joinD [d] (w :: x :: ws3) = w ++ ([d] ++ joinD [d] (x :: ws3)) := by
        rw [← List.append_assoc]
        rfl
      rw [hjoin, splitGo_append P w hw0 [] ([d] ++ joinD [d] (x :: ws3)),
        List.nil_append]
      have hrec : splitGo P [] (joinD [d] (x :: ws3)) = x :: ws3 := by
        refine ih ?_ ?_
        · intro v hv
          exact h1 v (List.mem_cons_of_mem w hv)
        · intro v hv
          exact h2 v (List.mem_cons_of_mem w hv)
      show splitGo P w (d :: joinD [d] (x :: ws3)) = w :: x :: ws3
      rw [splitGo_cons, if_pos hd, hrec]
      unfold flush
      rw [if_neg hne]

/-- No transition condition fires when only the Underscore boundary is
active. -/
theorem transitionCut_underscore (p : Option Nat) (a b : Nat) (la : Option Nat) :
    transitionCut [Boundary.Underscore] p a b la = false := rfl

/-- No transition condition fires when only the Hyphen boundary is active. -/
theorem transitionCut_hyphen (p : Option Nat) (a b : Nat) (la : Option Nat) :
    transitionCut [Boundary.Hyphen] p a b la = false := rfl

/-- No transition condition fires when only the Space boundary is active. -/
theorem transitionCut_space (p : Option Nat) (a b : Nat) (la : Option Nat) :
    transitionCut [Boundary.Space] p a b la = false := rfl

/-- No transition condition fires when no boundary is active. -/
theorem transitionCut_empty (p : Option Nat) (a b : Nat) (la : Option Nat) :
    transitionCut [] p a b la = false := rfl

/-- No character is a delimiter character of the empty boundary set. -/
theorem isDelimChar_empty (c : Nat) : isDelimChar [] c = false := rfl

/-- The delimiter characters of the full default set are exactly the three
separator characters. -/
theorem isDelimChar_default (c : Nat) :
    isDelimChar defaultBoundaries c = ((c == 95 || c == 45) || c == 32) := rfl

/-- A character of an auto-detected word is separator-safe. -/
theorem sepSafe_of_default (c : Nat)
    (h : isDelimChar defaultBoundaries c = false) : sepSafe c := by
  rw [isDelimChar_default] at h
  simp only [Bool.or_eq_false_iff, beq_eq_false_iff_ne] at h
  exact ⟨h.1.1, h.1.2, h.2⟩

/-- A separator-safe character is no delimiter character of the Underscore
singleton. -/
theorem sepSafe_not_underscore (c : Nat) (h : sepSafe c) :
    isDelimChar [Boundary.Underscore] c = false := by
  have he : isDelimChar [Boundary.Underscore] c = ((c == 95 || false && (c == 45)) || false && (c == 32)) := rfl
  rw [he]
  simp [h.1]

/-- A separator-safe character is no delimiter character of the Hyphen
singleton. -/
theorem sepSafe_not_hyphen (c : Nat) (h : sepSafe c) :
    isDelimChar [Boundary.Hyphen] c = false := by
  have he : isDelimChar [Boundary.Hyphen] c = ((false && (c == 95) || c == 45) || false && (c == 32)) := rfl
  rw [he]
  simp [h.2.1]

/-- A separator-safe character is no delimiter character of the Space
singleton. -/
theorem sepSafe_not_space (c : Nat) (h : sepSafe c) :
    isDelimChar [Boundary.Space] c = false := by
  have he : isDelimChar [Boundary.Space] c = ((false && (c == 95) || false && (c == 45)) || c == 32) := rfl
  rw [he]
  simp [h.2.2]

/-- Lowercasing a word keeps every character separator-safe. -/
theorem lowerWord_safe (w : List Nat) (h : ∀ c ∈ w, sepSafe c) :
    ∀ c ∈ lowerWord w, sepSafe c := by
  intro c hc
  obtain ⟨a, ha, rfl⟩ := List.mem_map.mp hc
  exact sepSafe_toLowerC a (h a ha)

/-- Uppercasing a word keeps every character separator-safe. -/
theorem upperWord_safe (w : List Nat) (h : ∀ c ∈ w, sepSafe c) :
    ∀ c ∈ upperWord w, sepSafe c := by
  intro c hc
  obtain ⟨a, ha, rfl⟩ := List.mem_map.mp hc
  exact sepSafe_toUpperC a (h a ha)

/-- Capitalizing a word keeps every character separator-safe. -/
theorem capitalWord_safe (w : List Nat) (h : ∀ c ∈ w, sepSafe c) :
    ∀ c ∈ capitalWord w, sepSafe c := by
  cases w with
  | nil =>
    intro c hc
    cases hc
  | cons a cs =>
    intro c hc
    rcases List.mem_cons.mp hc with rfl | hc
    · exact sepSafe_toUpperC a (h a (List.mem_cons_self a cs))
    · obtain ⟨x, hx, rfl⟩ := List.mem_map.mp hc
      exact sepSafe_toLowerC x (h x (List.mem_cons_of_mem a hx))

/-- Equation of the alternating walk on a first character. -/
theorem altWord_cons (b : Bool) (a : Nat) (cs : List Nat) :
    altWord b (a :: cs) =
      if isAlphaC a then ((altChar b a) :: (altWord (!b) cs).1, (altWord (!b) cs).2)
      else (a :: (altWord b cs).1, (altWord b cs).2) := rfl

/-- The alternating walk keeps every character separator-safe. -/
theorem altWord_safe (w : List Nat) :
    ∀ b : Bool, (∀ c ∈ w, sepSafe c) → ∀ c ∈ (altWord b w).1, sepSafe c := by
  induction w with
  | nil =>
    intro b h c hc
    cases hc
  | cons a cs ih =>
    intro b h c hc
    rw [altWord_cons] at hc
    by_cases ha : isAlphaC a = true
    · rw [if_pos ha] at hc
      rcases List.mem_cons.mp hc with rfl | hc
      · exact sepSafe_altChar b a (h a (List.mem_cons_self a cs))
      · exact ih (!b) (fun x hx => h x (List.mem_cons_of_mem a hx)) c hc
    · rw [if_neg ha] at hc
      rcases List.mem_cons.mp hc with rfl | hc
      · exact h c (List.mem_cons_self c cs)
      · exact ih b (fun x hx => h x (List.mem_cons_of_mem a hx)) c hc

/-- The alternating walk preserves word length. -/
theorem altWord_length (w : List Nat) : ∀ b : Bool, ((altWord b w).1).length = w.length := by
  induction w with
  | nil =>
    intro b
    rfl
  | cons a cs ih =>
    intro b
    rw [altWord_cons]
    by_cases ha : isAlphaC a = true
    · rw [if_pos ha]
      simp [ih (!b)]
    · rw [if_neg ha]
      simp [ih b]

/-- Words of the alternating rendering: each is the walk of the matching input
word at some toggle value. -/
theorem altWords_mem (ws : List (List Nat)) :
    ∀ (b : Bool) (w : List Nat), w ∈ altWords b ws →
      ∃ (v : List Nat) (b2 : Bool), v ∈ ws ∧ w = (altWord b2 v).1 := by
  induction ws with
  | nil =>
    intro b w hw
    cases hw
  | cons x ws2 ih =>
    intro b w hw
    rcases List.mem_cons.mp hw with rfl | hw
    · exact ⟨x, b, List.mem_cons_self x ws2, rfl⟩
    · obtain ⟨v, b2, hv, rfl⟩ := ih (altWord b x).2 w hw
      exact ⟨v, b2, List.mem_cons_of_mem x hv, rfl⟩

/-- Every word of a pattern rendering of separator-safe words is again
separator-safe. -/
theorem applyPattern_safe (pat : Pattern) (ws : List (List Nat))
    (h : ∀ w ∈ ws, ∀ c ∈ w, sepSafe c) :
    ∀ w ∈ applyPattern pat ws, ∀ c ∈ w, sepSafe c := by
  cases pat with
  | Lower =>
    intro w hw
    obtain ⟨v, hv, rfl⟩ := List.mem_map.mp hw
    exact lowerWord_safe v (h v hv)
  | Upper =>
    intro w hw
    obtain ⟨v, hv, rfl⟩ := List.mem_map.mp hw
    exact upperWord_safe v (h v hv)
  | Capital =>
    intro w hw
    obtain ⟨v, hv, rfl⟩ := List.mem_map.mp hw
    exact capitalWord_safe v (h v hv)
  | Toggle =>
    intro w hw
    obtain ⟨v, hv, rfl⟩ := List.mem_map.mp hw
    exact capitalWord_safe v (h v hv)
  | Sentence =>
    cases ws with
    | nil =>
      intro w hw
      cases hw
    | cons x ws2 =>
      intro w hw
      rcases List.mem_cons.mp hw with rfl | hw
      · exact capitalWord_safe x (h x (List.mem_cons_self x ws2))
      · obtain ⟨v, hv, rfl⟩ := List.mem_map.mp hw
        exact lowerWord_safe v (h v (List.mem_cons_of_mem x hv))
  | Camel =>
    cases ws with
    | nil =>
      intro w hw
      cases hw
    | cons x ws2 =>
      intro w hw
      rcases List.mem_cons.mp hw with rfl | hw
      · exact lowerWord_safe x (h x (List.mem_cons_self x ws2))
      · obtain ⟨v, hv, rfl⟩ := List.mem_map.mp hw
        exact capitalWord_safe v (h v (List.mem_cons_of_mem x hv))
  | Alternating =>
    intro w hw
    obtain ⟨v, b2, hv, rfl⟩ := altWords_mem ws false w hw
    exact altWord_safe v b2 (h v hv)

/-- Every word of a pattern rendering of nonempty words is again nonempty. -/
theorem applyPattern_ne_nil (pat : Pattern) (ws : List (List Nat))
    (h : ∀ w ∈ ws, w ≠ []) :
    ∀ w ∈ applyPattern pat ws, w ≠ [] := by
  have hlow : ∀ v : List Nat, v ≠ [] → lowerWord v ≠ [] := by
    intro v hv
    simpa [lowerWord] using hv
  have hupp : ∀ v : List Nat, v ≠ [] → upperWord v ≠ [] := by
    intro v hv
    simpa [upperWord] using hv
  have hcap : ∀ v : List Nat, v ≠ [] → capitalWord v ≠ [] := by
    intro v hv
    cases v with
    | nil => exact absurd rfl hv
    | cons a cs => simp [capitalWord]
  have halt : ∀ (v : List Nat) (b : Bool), v ≠ [] → (altWord b v).1 ≠ [] := by
    intro v b hv
    have := altWord_length v b
    intro hcon
    rw [hcon] at this
    exact hv (List.length_eq_zero.mp this.symm)
  cases pat with
  | Lower =>
    intro w hw
    obtain ⟨v, hv, rfl⟩ := List.mem_map.mp hw
    exact hlow v (h v hv)
  | Upper =>
    intro w hw
    obtain ⟨v, hv, rfl⟩ := List.mem_map.mp hw
    exact hupp v (h v hv)
  | Capital =>
    intro w hw
    obtain ⟨v, hv, rfl⟩ := List.mem_map.mp hw
    exact hcap v (h v hv)
  | Toggle =>
    intro w hw
    obtain ⟨v, hv, rfl⟩ := List.mem_map.mp hw
    exact hcap v (h v hv)
  | Sentence =>
    cases ws with
    | nil =>
      intro w hw
      cases hw
    | cons x ws2 =>
      intro w hw
      rcases List.mem_cons.mp hw with rfl | hw
      · exact hcap x (h x (List.mem_cons_self x ws2))
      · obtain ⟨v, hv, rfl⟩ := List.mem_map.mp hw
        exact hlow v (h v (List.mem_cons_of_mem x hv))
  | Camel =>
    cases ws with
    | nil =>
      intro w hw
      cases hw
    | cons x ws2 =>
      intro w hw
      rcases List.mem_cons.mp hw with rfl | hw
      · exact hlow x (h x (List.mem_cons_self x ws2))
      · obtain ⟨v, hv, rfl⟩ := List.mem_map.mp hw
        exact hcap v (h v (List.mem_cons_of_mem x hv))
  | Alternating =>
    intro w hw
    obtain ⟨v, b2, hv, rfl⟩ := altWords_mem ws false w hw
    exact halt v b2 (h v hv)

/-- Lowercasing a word is idempotent. -/
theorem lowerWord_idem (w : List Nat) : lowerWord (lowerWord w) = lowerWord w := by
  unfold lowerWord
  rw [List.map_map]
  exact List.map_congr_left (fun a ha => toLowerC_idem a)

/-- Uppercasing a word is idempotent. -/
theorem upperWord_idem (w : List Nat) : upperWord (upperWord w) = upperWord w := by
  unfold upperWord
  rw [List.map_map]
  exact List.map_congr_left (fun a ha => toUpperC_idem a)

/-- Capitalizing a word is idempotent. -/
theorem capitalWord_idem (w : List Nat) : capitalWord (capitalWord w) = capitalWord w := by
  cases w with
  | nil => rfl
  | cons a cs =>
    show toUpperC (toUpperC a) :: (cs.map toLowerC).map toLowerC
        = toUpperC a :: cs.map toLowerC
    rw [toUpperC_idem, List.map_map]
    congr 1
    exact List.map_congr_left (fun x hx => toLowerC_idem x)

/-- The alternating walk is idempotent at a fixed starting toggle, ending at
the same toggle. -/
theorem altWord_self (w : List Nat) :
    ∀ b : Bool, altWord b ((altWord b w).1) = altWord b w := by
  induction w with
  | nil =>
    intro b
    rfl
  | cons a cs ih =>
    intro b
    by_cases ha : isAlphaC a = true
    · rw [altWord_cons, if_pos ha]
      show altWord b (altChar b a :: (altWord (!b) cs).1)
          = (altChar b a :: (altWord (!b) cs).1, (altWord (!b) cs).2)
      rw [altWord_cons, isAlphaC_altChar, if_pos ha, altChar_altChar, ih (!b)]
    · rw [altWord_cons, if_neg ha]
      show altWord b (a :: (altWord b cs).1) = (a :: (altWord b cs).1, (altWord b cs).2)
      rw [altWord_cons, if_neg ha, ih b]

/-- Equation of the alternating rendering on a first word. -/
theorem altWords_cons (b : Bool) (w : List Nat) (ws : List (List Nat)) :
    altWords b (w :: ws) = (altWord b w).1 :: altWords (altWord b w).2 ws := rfl

/-- The alternating rendering of the whole word sequence is idempotent. -/
theorem altWords_self (ws : List (List Nat)) :
    ∀ b : Bool, altWords b (altWords b ws) = altWords b ws := by
  induction ws with
  | nil =>
    intro b
    rfl
  | cons w ws2 ih =>
    intro b
    rw [altWords_cons, altWords_cons, altWord_self w b, ih ((altWord b w).2)]

/-- Every pattern rendering is idempotent on the word sequence. -/
theorem applyPattern_idem (pat : Pattern) (ws : List (List Nat)) :
    applyPattern pat (applyPattern pat ws) = applyPattern pat ws := by
  cases pat with
  | Lower =>
    show (ws.map lowerWord).map lowerWord = ws.map lowerWord
    rw [List.map_map]
    exact List.map_congr_left (fun v hv => lowerWord_idem v)
  | Upper =>
    show (ws.map upperWord).map upperWord = ws.map upperWord
    rw [List.map_map]
    exact List.map_congr_left (fun v hv => upperWord_idem v)
  | Capital =>
    show (ws.map capitalWord).map capitalWord = ws.map capitalWord
    rw [List.map_map]
    exact List.map_congr_left (fun v hv => capitalWord_idem v)
  | Toggle =>
    show (ws.map capitalWord).map capitalWord = ws.map capitalWord
    rw [List.map_map]
    exact List.map_congr_left (fun v hv => capitalWord_idem v)
  | Sentence =>
    cases ws with
    | nil => rfl
    | cons x ws2 =>
      show capitalWord (capitalWord x) :: (ws2.map lowerWord).map lowerWord
          = capitalWord x :: ws2.map lowerWord
      rw [capitalWord_idem, List.map_map]
      congr 1
      exact List.map_congr_left (fun v hv => lowerWord_idem v)
  | Camel =>
    cases ws with
    | nil => rfl
    | cons x ws2 =>
      show lowerWord (lowerWord x) :: (ws2.map capitalWord).map capitalWord
          = lowerWord x :: ws2.map capitalWord
      rw [lowerWord_idem, List.map_map]
      congr 1
      exact List.map_congr_left (fun v hv => capitalWord_idem v)
  | Alternating =>
    exact altWords_self ws false

/-- Round-trip via a single-delimiter source case: re-detecting the rendered
join with the case's own delimiter boundary recovers the rendered words, and
re-rendering is the identity on them. -/
theorem reconvert_master (b : Boundary) (d : Nat) (pat : Pattern) (s : List Nat)
    (htc : ∀ (p : Option Nat) (a b2 : Nat) (la : Option Nat),
      transitionCut [b] p a b2 la = false)
    (hd : isDelimChar [b] d = true)
    (hsafe : ∀ c, sepSafe c → isDelimChar [b] c = false) :
    Converter.convert ⟨[b], some pat, [d]⟩
        (Converter.convert ⟨defaultBoundaries, some pat, [d]⟩ s)
      = Converter.convert ⟨defaultBoundaries, some pat, [d]⟩ s := by
  show joinD [d] (applyPattern pat (detect [b]
      (joinD [d] (applyPattern pat (detect defaultBoundaries s)))))
    = joinD [d] (applyPattern pat (detect defaultBoundaries s))
  have hws := detect_sound defaultBoundaries s
  have hne : ∀ w ∈ detect defaultBoundaries s, w ≠ [] := fun w hw => (hws w hw).1
  have hsf : ∀ w ∈ detect defaultBoundaries s, ∀ c ∈ w, sepSafe c :=
    fun w hw c hc => sepSafe_of_default c ((hws w hw).2 c hc)
  have hne2 := applyPattern_ne_nil pat (detect defaultBoundaries s) hne
  have hsf2 := applyPattern_safe pat (detect defaultBoundaries s) hsf
  have hdet : detect [b] (joinD [d] (applyPattern pat (detect defaultBoundaries s)))
      = applyPattern pat (detect defaultBoundaries s) := by
    unfold detect
    rw [detectGo_eq_splitGo [b] htc]
    exact splitGo_join (isDelimChar [b]) d hd _ hne2
      (fun w hw c hc => hsafe c (hsf2 w hw c hc))
  rw [hdet, applyPattern_idem]

/-- Joining with the empty delimiter is flattening. -/
theorem joinD_nil (ws : List (List Nat)) : joinD [] ws = ws.flatten := by
  induction ws with
  | nil => rfl
  | cons w ws2 ih =>
    cases ws2 with
    | nil =>
      show w = ([w] : List (List Nat)).flatten
      rw [List.flatten_cons, List.flatten_nil, List.append_nil]
    | cons x ws3 =>
      show (w ++ []) ++ joinD [] (x :: ws3) = ((w :: x :: ws3 : List (List Nat))).flatten
      rw [List.append_nil, List.flatten_cons, ih]

/-- Lowercasing distributes over flattening. -/
theorem lowerWord_flatten (L : List (List Nat)) :
    lowerWord L.flatten = (L.map lowerWord).flatten := by
  induction L with
  | nil => rfl
  | cons w L2 ih =>
    show lowerWord (w ++ L2.flatten) = lowerWord w ++ (L2.map lowerWord).flatten
    unfold lowerWord
    rw [List.map_append]
    congr 1

/-- Round-trip via the flat source case: with no boundary the whole rendered
string is one word, and lowercasing it again is the identity. -/
theorem reconvert_flat (s : List Nat) :
    Converter.convert ⟨[], some Pattern.Lower, []⟩
        (Converter.convert ⟨defaultBoundaries, some Pattern.Lower, []⟩ s)
      = Converter.convert ⟨defaultBoundaries, some Pattern.Lower, []⟩ s := by
  show joinD [] (applyPattern Pattern.Lower (detect []
      (joinD [] ((detect defaultBoundaries s).map lowerWord))))
    = joinD [] ((detect defaultBoundaries s).map lowerWord)
  set t := joinD [] ((detect defaultBoundaries s).map lowerWord) with ht
  have hdet : detect [] t = flush t [] := by
    unfold detect
    rw [detectGo_eq_splitGo [] transitionCut_empty,
      splitGo_all_false (isDelimChar []) isDelimChar_empty t [], List.nil_append]
  rw [hdet]
  by_cases h0 : t = []
  · rw [h0]
    rfl
  · have hfl : flush t [] = [t] := by
      unfold flush
      rw [if_neg h0]
    rw [hfl]
    show lowerWord t = t
    rw [ht, joinD_nil, lowerWord_flatten]
    congr 1
    rw [List.map_map]
    exact List.map_congr_left (fun v hv => lowerWord_idem v)

/-- C5: the claim fails as stated: for the target case pascal, the input a b
converts to AB, but re-converting AB from pascal to pascal yields Ab, because
the empty delimiter merges the two single-letter words and re-detection cannot
recover them. -/
theorem idempotence_fails_for_pascal :
    convertAuto Case.Pascal (codes "a b") = codes "AB" ∧
    reconvert Case.Pascal (codes "a b") = codes "Ab" ∧
    reconvert Case.Pascal (codes "a b") ≠ convertAuto Case.Pascal (codes "a b") := by
  refine ⟨by decide, by decide, by decide⟩

/-- C5 (amended): for every string and every target case other than pascal and
camel, conversion is idempotent: re-converting the converted output to the same
target case, using that case as the source, returns it unchanged. -/
theorem convert_idempotent_except_pascal_camel (s : List Nat) (c : Case)
    (h1 : c ≠ Case.Pascal) (h2 : c ≠ Case.Camel) :
    reconvert c s = convertAuto c s := by
  cases c
  case Pascal => exact absurd rfl h1
  case Camel => exact absurd rfl h2
  case Flat => exact reconvert_flat s
  case Snake =>
    exact reconvert_master Boundary.Underscore 95 Pattern.Lower s
      transitionCut_underscore rfl sepSafe_not_underscore
  case Constant =>
    exact reconvert_master Boundary.Underscore 95 Pattern.Upper s
      transitionCut_underscore rfl sepSafe_not_underscore
  case Kebab =>
    exact reconvert_master Boundary.Hyphen 45 Pattern.Lower s
      transitionCut_hyphen rfl sepSafe_not_hyphen
  case Cobol =>
    exact reconvert_master Boundary.Hyphen 45 Pattern.Upper s
      transitionCut_hyphen rfl sepSafe_not_hyphen
  case Lower =>
    exact reconvert_master Boundary.Space 32 Pattern.Lower s
      transitionCut_space rfl sepSafe_not_space
  case Upper =>
    exact reconvert_master Boundary.Space 32 Pattern.Upper s
      transitionCut_space rfl sepSafe_not_space
  case Title =>
    exact reconvert_master Boundary.Space 32 Pattern.Capital s
      transitionCut_space rfl sepSafe_not_space
  case Sentence =>
    exact reconvert_master Boundary.Space 32 Pattern.Sentence s
      transitionCut_space rfl sepSafe_not_space
  case Train =>
    exact reconvert_master Boundary.Hyphen 45 Pattern.Toggle s
      transitionCut_hyphen rfl sepSafe_not_hyphen
  case Alternating =>
    exact reconvert_master Boundary.Space 32 Pattern.Alternating s
      transitionCut_space rfl sepSafe_not_space

/-- Witness for the amended idempotence at the target case snake and the
concrete input myVarName. -/
theorem convert_idempotent_witness :
    (Case.Snake ≠ Case.Pascal ∧ Case.Snake ≠ Case.Camel) ∧
    reconvert Case.Snake (codes "myVarName")
      = convertAuto Case.Snake (codes "myVarName") :=
  ⟨⟨by decide, by decide⟩,
   convert_idempotent_except_pascal_camel (codes "myVarName") Case.Snake
     (by decide) (by decide)⟩
